import Mathlib

/-!
Verification development for the reading-activity analytics engine of the
newsreader frontend (frontend/src/pages/Analytics.tsx).

Modelling conventions:
* Timestamps are local-clock milliseconds as integers; the model assumes a
  fixed UTC offset, so one calendar day is exactly 86400000 ms and
  `date-fns.subDays d k` is `d - k * 86400000`.  A calendar day key
  (the image of `format(date, 'yyyy-MM-dd')`) is the floor-division of the
  timestamp by 86400000; this is injective and order-preserving on days,
  so day keys are modelled as integers.
* `string | null` fields that may also be empty (falsy) are modelled with
  enough structure to distinguish the branches the code takes.
* JS `Map` objects are modelled as insertion-ordered association lists:
  `set` on a present key updates in place, otherwise appends.
* Plain JS objects used as dictionaries (`Record<string, number>`) are
  modelled as insertion-ordered association lists, and `Object.entries`
  enumerates canonical array-index keys (strings `s` with `s = toString n`
  for some `n < 2^32 - 1`) first in ascending numeric order, then the
  remaining keys in insertion order, per the ECMAScript property-order
  specification.
* `Array.prototype.sort` is stable (ES2019); any two stable sorts under
  the same total preorder agree, so it is modelled by the (stable)
  `List.insertionSort`.
* `Math.round x` is `⌊x + 1/2⌋`; numeric scores are modelled as rationals
  (only order comparisons and exact decimal constants occur).
-/

namespace NewsAnalytics

/-- Number of milliseconds in a calendar day (fixed-offset model). -/
def msPerDay : Int := 86400000

/-- Calendar-day key of a timestamp: the result of formatting with
'yyyy-MM-dd', modelled as floor division of local ms by `msPerDay`. -/
def dayOf (t : Int) : Int := t / msPerDay

/-- JS `Math.round`: round half toward positive infinity. -/
def jsRound (q : ℚ) : Int := ⌊q + 1/2⌋

/-- Feed record (frontend/src/types/index.ts): only the fields the
analytics code reads.  `title : string | null` is `Option String`
(the empty string is a live value, distinct from `null`). -/
structure Feed where
  id : Int
  title : Option String
  is_active : Bool
deriving DecidableEq, Repr

/-- Article record (frontend/src/types/index.ts), restricted to fields the
analytics code reads.  `published_date : string | null` is modelled by its
observable fate in `parseArticleDate`: `none` = null or empty (falsy),
`some none` = present but `new Date` yields NaN, `some (some t)` = parses
to timestamp `t`.  `created_at : string` likewise (it may be empty or
unparseable).  `sentiment_score : number | null` is `Option ℚ`;
`topics : string[] | null` is `Option (List String)`. -/
structure Article where
  id : Int
  feed_id : Int
  published_date : Option (Option Int)
  created_at : Option (Option Int)
  cluster_id : Option Int
  sentiment_score : Option ℚ
  topics : Option (List String)
  is_read : Bool
  is_bookmarked : Bool
deriving DecidableEq, Repr

/-- `parseArticleDate` (Analytics.tsx:40-47): `raw = published_date ||
created_at`; null if raw is falsy; null if `new Date(raw)` is NaN. -/
def parseArticleDate (a : Article) : Option Int :=
  match a.published_date with
  | some v => v
  | none =>
    match a.created_at with
    | some v => v
    | none => none

/-- Calendar day of an article's effective date, when parseable. -/
def effectiveDay (a : Article) : Option Int := (parseArticleDate a).map dayOf

/-- End of the current day, 23:59:59.999 local (Analytics.tsx:94). -/
def endOfToday (now : Int) : Int := dayOf now * msPerDay + (msPerDay - 1)

/-- `cutoffDate` (Analytics.tsx:89-96): `null` for the `all` token,
otherwise `subDays(endOfToday, N-1)`.  The argument is the value of
`timeRangeDays` (`null` for `all`, else the parsed token). -/
def cutoffDate (now : Int) (timeRangeDays : Option Nat) : Option Int :=
  match timeRangeDays with
  | none => none
  | some n => some (endOfToday now - ((n : Int) - 1) * msPerDay)

/-- Filter predicate of `filteredArticles` (Analytics.tsx:100-105). -/
def includeArticle (cutoff : Option Int) (a : Article) : Bool :=
  match cutoff with
  | none => true
  | some c =>
    match parseArticleDate a with
    | none => false
    | some t => c ≤ t

/-- `filteredArticles` (Analytics.tsx:98-106). -/
def filteredArticles (articles : List Article) (cutoff : Option Int) : List Article :=
  articles.filter (includeArticle cutoff)

/-- The five sentiment buckets. -/
inductive SentimentBucket where
  | positive
  | slightlyPositive
  | neutral
  | slightlyNegative
  | negative
deriving DecidableEq, Repr

/-- The inline threshold chain of the engagement pass (Analytics.tsx:163-173):
`score >= 0.5` positive; else `>= 0.05` slightly positive; else `<= -0.5`
negative; else `<= -0.05` slightly negative; else neutral. -/
def classifySentiment (score : ℚ) : SentimentBucket :=
  if 1/2 ≤ score then .positive
  else if 1/20 ≤ score then .slightlyPositive
  else if score ≤ -(1/2) then .negative
  else if score ≤ -(1/20) then .slightlyNegative
  else .neutral

/-- Per-key counters `{ total, read, unread }` used both by `feedTotals`
and by the daily-activity `countsMap`. -/
structure Counts where
  total : Nat
  read : Nat
  unread : Nat
deriving DecidableEq, Repr

/-- Increment a `Counts` cell for one article, as both accumulation sites
do: `total += 1`, then `read += 1` or `unread += 1` by `is_read`. -/
def bumpCounts (c : Counts) (a : Article) : Counts :=
  let c := { c with total := c.total + 1 }
  if a.is_read then { c with read := c.read + 1 } else { c with unread := c.unread + 1 }

/-- JS `Map.get` on an insertion-ordered association list. -/
def mapGet {α β : Type} [DecidableEq α] (m : List (α × β)) (k : α) : Option β :=
  (m.find? (fun kv => kv.1 = k)).map Prod.snd

/-- JS `Map.set` on an insertion-ordered association list: update in place
when the key is present (keys are unique by construction, so the first
occurrence is the only one), else append. -/
def mapSet {α β : Type} [DecidableEq α] : List (α × β) → α → β → List (α × β)
  | [], k, v => [(k, v)]
  | kv :: rest, k, v =>
    if kv.1 = k then (k, v) :: rest else kv :: mapSet rest k v

/-- The five fallback sentiment counters (Analytics.tsx:122-128). -/
structure SentimentCounters where
  positive : Nat
  slightlyPositive : Nat
  neutral : Nat
  slightlyNegative : Nat
  negative : Nat
deriving DecidableEq, Repr

/-- Increment one fallback sentiment counter. -/
def bumpSentiment (s : SentimentCounters) (b : SentimentBucket) : SentimentCounters :=
  match b with
  | .positive => { s with positive := s.positive + 1 }
  | .slightlyPositive => { s with slightlyPositive := s.slightlyPositive + 1 }
  | .neutral => { s with neutral := s.neutral + 1 }
  | .slightlyNegative => { s with slightlyNegative := s.slightlyNegative + 1 }
  | .negative => { s with negative := s.negative + 1 }

/-- Accumulator of the single engagement pass (Analytics.tsx:116-128);
the `uniqueDaySet` and `topicCounts` accumulators are omitted as no
claim refers to them. -/
structure EngagementAcc where
  readCount : Nat
  unreadCount : Nat
  bookmarkCount : Nat
  feedTotals : List (Int × Counts)
  sentiments : SentimentCounters
deriving DecidableEq, Repr

/-- One iteration of the engagement `forEach` (Analytics.tsx:130-175). -/
def engagementStep (acc : EngagementAcc) (a : Article) : EngagementAcc :=
  let acc :=
    if a.is_read then { acc with readCount := acc.readCount + 1 }
    else { acc with unreadCount := acc.unreadCount + 1 }
  let acc :=
    if a.is_bookmarked then { acc with bookmarkCount := acc.bookmarkCount + 1 }
    else acc
  let feedEntry := (mapGet acc.feedTotals a.feed_id).getD ⟨0, 0, 0⟩
  let acc := { acc with feedTotals := mapSet acc.feedTotals a.feed_id (bumpCounts feedEntry a) }
  match a.sentiment_score with
  | some score => { acc with sentiments := bumpSentiment acc.sentiments (classifySentiment score) }
  | none => acc

/-- The engagement pass over the filtered article list. -/
def engagementRun (filtered : List Article) : EngagementAcc :=
  filtered.foldl engagementStep ⟨0, 0, 0, [], ⟨0, 0, 0, 0, 0⟩⟩

/-- `engagement.total` (Analytics.tsx:195): the filtered article count. -/
def engagementTotal (filtered : List Article) : Nat := filtered.length

/-- One feed-performance entry (Analytics.tsx:177-192). -/
structure FeedPerf where
  feedId : Int
  name : String
  active : Bool
  total : Nat
  read : Nat
  unread : Nat
  readRate : Int
deriving DecidableEq, Repr

/-- `feedsById` lookup (Analytics.tsx:108-111): a `Map` built from the
feed list, so a later feed with the same id overwrites an earlier one. -/
def feedsById (feeds : List Feed) (fid : Int) : Option Feed :=
  feeds.reverse.find? (fun f => f.id = fid)

/-- The entry built for one `feedTotals` key (Analytics.tsx:178-189).
`feed?.title || 'Untitled'` falls back on null, missing feed, or the
empty string (falsy); `feed?.is_active ?? false` falls back only on a
missing feed. -/
def feedPerfEntry (feeds : List Feed) (kv : Int × Counts) : FeedPerf :=
  let feed := feedsById feeds kv.1
  { feedId := kv.1
    name :=
      match feed with
      | some f =>
        match f.title with
        | some t => if t = "" then "Untitled" else t
        | none => "Untitled"
      | none => "Untitled"
    active := match feed with | some f => f.is_active | none => false
    total := kv.2.total
    read := kv.2.read
    unread := kv.2.unread
    readRate :=
      if 0 < kv.2.total then jsRound ((kv.2.read : ℚ) / (kv.2.total : ℚ) * 100) else 0 }

/-- `feedPerformance` (Analytics.tsx:177-192): map the totals, keep
`total > 0`, sort descending by `total` (stable), keep the top 10. -/
def feedPerformance (feeds : List Feed) (feedTotals : List (Int × Counts)) :
    List FeedPerf :=
  ((((feedTotals.map (feedPerfEntry feeds)).filter (fun e => 0 < e.total)).insertionSort
      (fun a b => b.total ≤ a.total)).take 10)

/-- `topFeedsForChart` (Analytics.tsx:426). -/
def topFeedsForChart (feeds : List Feed) (feedTotals : List (Int × Counts)) :
    List FeedPerf :=
  (feedPerformance feeds feedTotals).take 8

/-- One point of the daily activity series (Analytics.tsx:25-31); the
purely presentational `label` string is omitted, `dateKey` is the
calendar-day number (the injective, order-preserving image of the
'yyyy-MM-dd' key). -/
structure DailyActivityPoint where
  dateKey : Int
  read : Nat
  unread : Nat
  total : Nat
deriving DecidableEq, Repr

/-- One iteration of the `countsMap` accumulation (Analytics.tsx:224-236):
skip articles with an unparseable date, else bump the cell at the
article's day key. -/
def countsStep (m : List (Int × Counts)) (a : Article) : List (Int × Counts) :=
  match effectiveDay a with
  | none => m
  | some k =>
    let entry := (mapGet m k).getD ⟨0, 0, 0⟩
    mapSet m k (bumpCounts entry a)

/-- The day-keyed `countsMap` over the filtered list (Analytics.tsx:222-236). -/
def countsMapBuild (filtered : List Article) : List (Int × Counts) :=
  filtered.foldl countsStep []

/-- Counts looked up for a day key, with the `{read:0,unread:0,total:0}`
default (Analytics.tsx:228,244). -/
def dayCounts (filtered : List Article) (k : Int) : Counts :=
  (mapGet (countsMapBuild filtered) k).getD ⟨0, 0, 0⟩

/-- `dailyActivity` (Analytics.tsx:219-269).  Finite window: one point per
offset `N-1` down to `0`, i.e. ascending day keys `today-(N-1) .. today`,
zero-filled from the counts map.  `all` window: one point per key present
in the counts map, sorted ascending. -/
def dailyActivity (now : Int) (timeRangeDays : Option Nat)
    (filtered : List Article) : List DailyActivityPoint :=
  match timeRangeDays with
  | some n =>
    (List.range n).map (fun (i : Nat) =>
      let k := dayOf now - ((n : Int) - 1) + (i : Int)
      let entry := dayCounts filtered k
      ⟨k, entry.read, entry.unread, entry.total⟩)
  | none =>
    let sortedKeys := ((countsMapBuild filtered).map Prod.fst).insertionSort (fun a b => a ≤ b)
    sortedKeys.map (fun k =>
      let entry := dayCounts filtered k
      ⟨k, entry.read, entry.unread, entry.total⟩)

/-- The `current` value after the gap check of one streak iteration
(Analytics.tsx:279-284): reset to 0 when the day difference from the
previous point exceeds 1. -/
def streakCur (prev : Option Int) (current : Nat) (p : DailyActivityPoint) : Nat :=
  match prev with
  | some d => if 1 < p.dateKey - d then 0 else current
  | none => current

/-- One iteration of the streak `forEach` (Analytics.tsx:277-292), on the
state `(best, current, prevDate)`.  The day difference
`Math.round((date - prevDate) / 86400000)` is exact on day keys. -/
def streakStep (s : Nat × Nat × Option Int) (p : DailyActivityPoint) :
    Nat × Nat × Option Int :=
  let current := streakCur s.2.2 s.2.1 p
  if 0 < p.read then
    (max s.1 (current + 1), current + 1, some p.dateKey)
  else
    (s.1, 0, some p.dateKey)

/-- `longestReadStreak` (Analytics.tsx:271-295). -/
def longestReadStreak (points : List DailyActivityPoint) : Nat :=
  if points.length = 0 then 0
  else (points.foldl streakStep (0, 0, none)).1

/-- External sentiment aggregate returned by
`articlesApi.getSentimentAnalytics` (api/articles.ts); the `daily_trends`
map is omitted as no claim refers to it.  `total` is a plain number and is
modelled as an unconstrained integer. -/
structure SentimentAnalytics where
  positive : Nat
  slightly_positive : Nat
  neutral : Nat
  slightly_negative : Nat
  negative : Nat
  total : Int
deriving DecidableEq, Repr

/-- One output record of the sentiment resolver (Analytics.tsx:302-341);
the presentational `label`, `description` and `className` strings are
omitted, `id` is kept. -/
structure SentimentBucketOut where
  id : String
  value : Nat
  percent : Int
deriving DecidableEq, Repr

/-- Sum of the five fallback counters:
`Object.values(fallback).reduce((sum, v) => sum + v, 0)`. -/
def fallbackSum (fb : SentimentCounters) : Nat :=
  fb.positive + fb.slightlyPositive + fb.neutral + fb.slightlyNegative + fb.negative

/-- `sentimentBuckets` (Analytics.tsx:297-387), for a present engagement
result (the code returns `[]` before the articles and feeds load; the
claims concern the resolver on the computed fallback counters).
`totals` is the external aggregate's `total` when the aggregate is
supplied, else the fallback sum; both branches compute
`percent = totals > 0 ? Math.round(value / totals * 100) : 0`. -/
def sentimentBuckets (ext : Option SentimentAnalytics) (fallback : SentimentCounters) :
    List SentimentBucketOut :=
  let totals : Int :=
    match ext with
    | some e => e.total
    | none => (fallbackSum fallback : Int)
  let pct : Nat → Int := fun v =>
    if 0 < totals then jsRound ((v : ℚ) / (totals : ℚ) * 100) else 0
  match ext with
  | some e =>
    if 0 < e.total then
      [⟨"positive", e.positive, pct e.positive⟩,
       ⟨"slightlyPositive", e.slightly_positive, pct e.slightly_positive⟩,
       ⟨"neutral", e.neutral, pct e.neutral⟩,
       ⟨"slightlyNegative", e.slightly_negative, pct e.slightly_negative⟩,
       ⟨"negative", e.negative, pct e.negative⟩]
    else
      [⟨"positive", fallback.positive, pct fallback.positive⟩,
       ⟨"slightlyPositive", fallback.slightlyPositive, pct fallback.slightlyPositive⟩,
       ⟨"neutral", fallback.neutral, pct fallback.neutral⟩,
       ⟨"slightlyNegative", fallback.slightlyNegative, pct fallback.slightlyNegative⟩,
       ⟨"negative", fallback.negative, pct fallback.negative⟩]
  | none =>
    [⟨"positive", fallback.positive, pct fallback.positive⟩,
     ⟨"slightlyPositive", fallback.slightlyPositive, pct fallback.slightlyPositive⟩,
     ⟨"neutral", fallback.neutral, pct fallback.neutral⟩,
     ⟨"slightlyNegative", fallback.slightlyNegative, pct fallback.slightlyNegative⟩,
     ⟨"negative", fallback.negative, pct fallback.negative⟩]

/-- One step of the topic accumulation of `getClusterTopics`
(Analytics.tsx:880-885): `articles.find` picks the first article with the
member id; its topic list (when non-null) is appended. -/
def collectStep (articles : List Article) (acc : List String) (i : Int) :
    List String :=
  match articles.find? (fun a => a.id = i) with
  | some a =>
    match a.topics with
    | some ts => acc ++ ts
    | none => acc
  | none => acc

/-- Topic accumulation of `getClusterTopics` (Analytics.tsx:878-885) over
the member id list in order. -/
def collectClusterTopics (articleIds : List Int) (articles : List Article) :
    List String :=
  articleIds.foldl (collectStep articles) []

/-- One step of the `topicCounts` reduce (Analytics.tsx:887-890):
`acc[topic] = (acc[topic] || 0) + 1` on a plain object, modelled as an
insertion-ordered association list (keys unique by construction). -/
def bumpTopic : List (String × Nat) → String → List (String × Nat)
  | [], t => [(t, 1)]
  | kv :: rest, t =>
    if kv.1 = t then (kv.1, kv.2 + 1) :: rest else kv :: bumpTopic rest t

/-- The `topicCounts` record built by the reduce (Analytics.tsx:887-890). -/
def topicCounts (topics : List String) : List (String × Nat) :=
  topics.foldl bumpTopic []

/-- Decimal value of a digit character. -/
def digitVal (c : Char) : Option Nat :=
  if c = '0' then some 0
  else if c = '1' then some 1
  else if c = '2' then some 2
  else if c = '3' then some 3
  else if c = '4' then some 4
  else if c = '5' then some 5
  else if c = '6' then some 6
  else if c = '7' then some 7
  else if c = '8' then some 8
  else if c = '9' then some 9
  else none

/-- Value of a nonempty all-digit character list, most significant first. -/
def parseDigits (l : List Char) : Option Nat :=
  l.foldl
    (fun acc c =>
      match acc, digitVal c with
      | some n, some d => some (10 * n + d)
      | _, _ => none)
    (some 0)

/-- Canonical array-index test for a JS object key: `some n` when the key
is the canonical decimal string of `n` (nonempty, all digits, no leading
zero except for "0") and `n < 2^32 - 1`, per ECMAScript array-index
property ordering. -/
def canonicalIndex (s : String) : Option Nat :=
  match s.data with
  | [] => none
  | [c] => digitVal c
  | c :: cs =>
    if c = '0' then none
    else
      match parseDigits (c :: cs) with
      | some n => if n < 4294967295 then some n else none
      | none => none

/-- `Object.entries` on a plain object modelled as an insertion-ordered
association list: canonical array-index keys first in ascending numeric
order, then the remaining string keys in insertion order. -/
def objectEntries (m : List (String × Nat)) : List (String × Nat) :=
  ((m.filter (fun kv => (canonicalIndex kv.1).isSome)).insertionSort
      (fun a b => ((canonicalIndex a.1).getD 0) ≤ ((canonicalIndex b.1).getD 0)))
    ++ m.filter (fun kv => ¬ (canonicalIndex kv.1).isSome)

/-- `getClusterTopics` (Analytics.tsx:876-896): accumulate member topics,
count them, `Object.entries(...).sort((a,b) => b[1]-a[1]).slice(0,3)`
(stable), keep the topic strings. -/
def getClusterTopics (articleIds : List Int) (articles : Option (List Article)) :
    List String :=
  match articles with
  | none => []
  | some arts =>
    let topics := collectClusterTopics articleIds arts
    (((objectEntries (topicCounts topics)).insertionSort (fun a b => b.2 ≤ a.2)).take 3).map
      Prod.fst

/-- Modelled from the spec (claim C9's tie rule, for comparison with the
code): frequencies sorted descending with ties resolved by first-seen
order over the accumulation, i.e. a stable descending sort of the counts
in insertion order, top 3 topic strings. -/
def claimClusterTopicsFirstSeen (articleIds : List Int) (articles : List Article) :
    List String :=
  let topics := collectClusterTopics articleIds articles
  (((topicCounts topics).insertionSort (fun a b => b.2 ≤ a.2)).take 3).map Prod.fst

/-- Length of the run of consecutive read days at the head of the series,
continuing a run whose previous day key is `d`: counts while each point
is exactly one day after the previous one and has `read > 0`. -/
def headRunFrom (d : Int) : List DailyActivityPoint → Nat
  | [] => 0
  | p :: rest =>
    if p.dateKey = d + 1 ∧ 0 < p.read then headRunFrom p.dateKey rest + 1 else 0

/-- Specification of the longest read streak, independent of the fold in
the code: the maximum, over all points, of the run of consecutive read
days starting at that point. -/
def longestRunSpec : List DailyActivityPoint → Nat
  | [] => 0
  | p :: rest =>
    max (if 0 < p.read then headRunFrom p.dateKey rest + 1 else 0) (longestRunSpec rest)

/-- Projection of a fallback counter by bucket. -/
def SentimentCounters.get (s : SentimentCounters) : SentimentBucket → Nat
  | .positive => s.positive
  | .slightlyPositive => s.slightlyPositive
  | .neutral => s.neutral
  | .slightlyNegative => s.slightlyNegative
  | .negative => s.negative

/-- Whether an article carries a score that classifies into bucket `b`. -/
def sentimentMatches (b : SentimentBucket) (a : Article) : Bool :=
  match a.sentiment_score with
  | some s => classifySentiment s = b
  | none => false

/-- Whether an article's effective date parses to calendar day `k`. -/
def matchesDay (k : Int) (a : Article) : Bool :=
  effectiveDay a = some k

/-- Explicit recursion computing what the streak fold adds on top of an
incoming `best`: from predecessor day `prev` and current-run credit
`current`, the maximum run value reached while scanning `l`. -/
def streakG : Option Int → Nat → List DailyActivityPoint → Nat
  | _, _, [] => 0
  | prev, current, p :: rest =>
    let c2 := if 0 < p.read then streakCur prev current p + 1 else 0
    max c2 (streakG (some p.dateKey) c2 rest)

/-- Day-consecutive read-run predicate: each point is exactly one day
after the previous, starting one day after `d`. -/
def consecFrom (d : Int) : List DailyActivityPoint → Prop
  | [] => True
  | p :: rest => p.dateKey = d + 1 ∧ consecFrom p.dateKey rest

/-- The seven-day example series of the spec: per-day read counts
[1,1,0,1,1,1,0] over seven consecutive ascending days. -/
def exampleSeries : List DailyActivityPoint :=
  [⟨0, 1, 0, 1⟩, ⟨1, 1, 0, 1⟩, ⟨2, 0, 1, 1⟩, ⟨3, 1, 0, 1⟩,
   ⟨4, 1, 0, 1⟩, ⟨5, 1, 0, 1⟩, ⟨6, 0, 1, 1⟩]

/-- Sum of the `total` fields of a daily activity series. -/
def activityTotalSum (pts : List DailyActivityPoint) : Nat :=
  (pts.map (fun p => p.total)).sum

/-- The percent the fallback branch computes when no external aggregate is
supplied: denominator is the sum of the five fallback counters. -/
def fallbackPercent (fb : SentimentCounters) (v : Nat) : Int :=
  if 0 < (fallbackSum fb : Int) then
    jsRound ((v : ℚ) / ((fallbackSum fb : Nat) : ℚ) * 100)
  else 0

/-- Four sample articles with ids 1-4 and one topic each, used to exhibit
the effect of duplicated cluster member ids. -/
def sampleClusterArticles : List Article :=
  [⟨1, 0, none, some (some 0), none, none, some ["x"], false, false⟩,
   ⟨2, 0, none, some (some 0), none, none, some ["y"], false, false⟩,
   ⟨3, 0, none, some (some 0), none, none, some ["z"], false, false⟩,
   ⟨4, 0, none, some (some 0), none, none, some ["w"], false, false⟩]

/-- Sample article with four single-occurrence topics, one of which is a
canonical array-index string. -/
def sampleTopicArticle : Article :=
  ⟨1, 0, none, some (some 0), none, none, some ["a", "b", "c", "5"], false, false⟩

/-- Sample article dated noon of day 94 (both date fields). -/
def articleNoonDay94 : Article :=
  ⟨1, 0, some (some (94 * 86400000 + 43200000)),
   some (some (94 * 86400000 + 43200000)), none, none, none, false, false⟩

/-- Sample article dated noon of day 101, one day after "today" = day 100. -/
def articleNoonDay101 : Article :=
  ⟨1, 0, some (some (101 * 86400000 + 43200000)),
   some (some (101 * 86400000 + 43200000)), none, none, none, false, false⟩

/-! ### Association-list map lemmas -/

theorem mapGet_nil {α β : Type} [DecidableEq α] (k : α) :
    mapGet ([] : List (α × β)) k = none := rfl

theorem mapGet_cons {α β : Type} [DecidableEq α] (kv : α × β) (rest : List (α × β))
    (k : α) :
    mapGet (kv :: rest) k = if kv.1 = k then some kv.2 else mapGet rest k := by
  by_cases h : kv.1 = k <;> simp [mapGet, List.find?_cons, h]

theorem mapGet_mapSet {α β : Type} [DecidableEq α] (m : List (α × β)) (k k' : α)
    (v : β) :
    mapGet (mapSet m k v) k' = if k = k' then some v else mapGet m k' := by
  induction m with
  | nil => by_cases h : k = k' <;> simp [mapSet, mapGet_cons, mapGet_nil, h]
  | cons kv rest ih =>
    by_cases h : kv.1 = k
    · by_cases h2 : k = k'
      · simp [mapSet, h, mapGet_cons, h2]
      · have hkv : ¬ kv.1 = k' := by rw [h]; exact h2
        simp [mapSet, h, mapGet_cons, h2, hkv]
    · by_cases h' : kv.1 = k'
      · have h2 : ¬ k = k' := fun e => h (h'.trans e.symm)
        have h3 : ¬ k' = k := fun e => h2 e.symm
        simp [mapSet, h, mapGet_cons, h', h2, h3]
      · simp [mapSet, h, mapGet_cons, h', ih]

theorem mem_mapSet {α β : Type} [DecidableEq α] {m : List (α × β)} {k : α} {v : β}
    {kv : α × β} (h : kv ∈ mapSet m k v) : kv = (k, v) ∨ kv ∈ m := by
  induction m with
  | nil => simpa [mapSet] using h
  | cons kv' rest ih =>
    by_cases hk : kv'.1 = k
    · simp only [mapSet, hk, if_pos rfl] at h
      rcases List.mem_cons.1 h with h | h
      · exact Or.inl h
      · exact Or.inr (List.mem_cons_of_mem _ h)
    · simp only [mapSet, hk, if_neg] at h
      rcases List.mem_cons.1 h with h | h
      · exact Or.inr (h ▸ List.mem_cons_self _ _)
      · rcases ih h with h | h
        · exact Or.inl h
        · exact Or.inr (List.mem_cons_of_mem _ h)

theorem keys_mapSet {α β : Type} [DecidableEq α] (m : List (α × β)) (k k' : α)
    (v : β) :
    k' ∈ (mapSet m k v).map Prod.fst ↔ k' ∈ m.map Prod.fst ∨ k' = k := by
  induction m with
  | nil => simp [mapSet]
  | cons kv rest ih =>
    by_cases h : kv.1 = k
    · subst h
      simp [mapSet]
      tauto
    · simp [mapSet, h, ih]
      tauto

theorem nodup_keys_mapSet {α β : Type} [DecidableEq α] {m : List (α × β)} (k : α)
    (v : β) (h : (m.map Prod.fst).Nodup) :
    ((mapSet m k v).map Prod.fst).Nodup := by
  induction m with
  | nil => simp [mapSet]
  | cons kv rest ih =>
    rw [List.map_cons, List.nodup_cons] at h
    obtain ⟨hni, hnd⟩ := h
    by_cases hk : kv.1 = k
    · subst hk
      have he : mapSet (kv :: rest) kv.1 v = (kv.1, v) :: rest := by
        simp [mapSet]
      rw [he, List.map_cons, List.nodup_cons]
      exact ⟨hni, hnd⟩
    · simp only [mapSet, if_neg hk, List.map_cons, List.nodup_cons]
      refine ⟨?_, ih hnd⟩
      intro hmem
      rcases (keys_mapSet rest k kv.1 v).1 hmem with h' | h'
      · exact hni h'
      · exact hk h'

/-! ### Counting lemmas -/

theorem sum_map_add {α : Type} (K : List α) (f g : α → Nat) :
    (K.map (fun k => f k + g k)).sum = (K.map f).sum + (K.map g).sum := by
  induction K with
  | nil => simp
  | cons k K ih => simp [ih]; omega

theorem sum_map_indicator {α : Type} [DecidableEq α] (K : List α) (hK : K.Nodup)
    (x : α) :
    (K.map (fun k => if x = k then 1 else 0)).sum = if x ∈ K then 1 else 0 := by
  induction K with
  | nil => simp
  | cons k K ih =>
    rw [List.nodup_cons] at hK
    obtain ⟨hni, hnd⟩ := hK
    rw [List.map_cons, List.sum_cons, ih hnd]
    by_cases hx : x = k
    · subst hx
      rw [if_pos rfl, if_neg hni, if_pos (List.mem_cons_self _ _)]
    · rw [if_neg hx]
      by_cases hmem : x ∈ K
      · rw [if_pos hmem, if_pos (List.mem_cons_of_mem _ hmem)]
      · rw [if_neg hmem, if_neg (by simp [List.mem_cons, hx, hmem])]

/-! ### Engagement pass lemmas -/

theorem engagementStep_readCount (acc : EngagementAcc) (a : Article) :
    (engagementStep acc a).readCount = acc.readCount + if a.is_read then 1 else 0 := by
  cases h : a.sentiment_score <;>
    cases hr : a.is_read <;>
      cases hb : a.is_bookmarked <;>
        simp [engagementStep, h, hr, hb]

theorem engagementStep_unreadCount (acc : EngagementAcc) (a : Article) :
    (engagementStep acc a).unreadCount = acc.unreadCount + if a.is_read then 0 else 1 := by
  cases h : a.sentiment_score <;>
    cases hr : a.is_read <;>
      cases hb : a.is_bookmarked <;>
        simp [engagementStep, h, hr, hb]

theorem engagementStep_feedTotals (acc : EngagementAcc) (a : Article) :
    (engagementStep acc a).feedTotals =
      mapSet acc.feedTotals a.feed_id
        (bumpCounts ((mapGet acc.feedTotals a.feed_id).getD ⟨0, 0, 0⟩) a) := by
  cases h : a.sentiment_score <;>
    cases hr : a.is_read <;>
      cases hb : a.is_bookmarked <;>
        simp [engagementStep, h, hr, hb]

theorem get_bumpSentiment (s : SentimentCounters) (b b' : SentimentBucket) :
    (bumpSentiment s b').get b = s.get b + if b' = b then 1 else 0 := by
  cases b' <;> cases b <;> simp [bumpSentiment, SentimentCounters.get]

theorem engagementStep_sentiments_get (acc : EngagementAcc) (a : Article)
    (b : SentimentBucket) :
    (engagementStep acc a).sentiments.get b =
      acc.sentiments.get b + if sentimentMatches b a then 1 else 0 := by
  cases h : a.sentiment_score with
  | none =>
    cases hr : a.is_read <;>
      cases hb : a.is_bookmarked <;>
        simp [engagementStep, h, hr, hb, sentimentMatches]
  | some s =>
    cases hr : a.is_read <;>
      cases hb : a.is_bookmarked <;>
        simp [engagementStep, h, hr, hb, sentimentMatches, get_bumpSentiment]

theorem foldl_engagement_readCount (l : List Article) (acc : EngagementAcc) :
    (l.foldl engagementStep acc).readCount =
      acc.readCount + l.countP (fun a => a.is_read) := by
  induction l generalizing acc with
  | nil => simp
  | cons a l ih =>
    rw [List.foldl_cons, ih, engagementStep_readCount, List.countP_cons]
    cases ha : a.is_read <;> simp [ha] <;> omega

theorem foldl_engagement_unreadCount (l : List Article) (acc : EngagementAcc) :
    (l.foldl engagementStep acc).unreadCount =
      acc.unreadCount + l.countP (fun a => !a.is_read) := by
  induction l generalizing acc with
  | nil => simp
  | cons a l ih =>
    rw [List.foldl_cons, ih, engagementStep_unreadCount, List.countP_cons]
    cases ha : a.is_read <;> simp [ha] <;> omega

theorem foldl_engagement_sentiments_get (l : List Article) (acc : EngagementAcc)
    (b : SentimentBucket) :
    (l.foldl engagementStep acc).sentiments.get b =
      acc.sentiments.get b + l.countP (sentimentMatches b) := by
  induction l generalizing acc with
  | nil => simp
  | cons a l ih =>
    rw [List.foldl_cons, ih, engagementStep_sentiments_get, List.countP_cons]
    cases ha : sentimentMatches b a <;> simp [ha] <;> omega

theorem bumpCounts_inv {c : Counts} (a : Article) (h : c.read + c.unread = c.total) :
    (bumpCounts c a).read + (bumpCounts c a).unread = (bumpCounts c a).total := by
  cases ha : a.is_read <;> simp [bumpCounts, ha] <;> omega

theorem foldl_engagement_feedTotals_inv (l : List Article) (acc : EngagementAcc)
    (h : ∀ kv ∈ acc.feedTotals, (kv : Int × Counts).2.read + kv.2.unread = kv.2.total) :
    ∀ kv ∈ (l.foldl engagementStep acc).feedTotals,
      kv.2.read + kv.2.unread = kv.2.total := by
  induction l generalizing acc with
  | nil => exact h
  | cons a l ih =>
    rw [List.foldl_cons]
    apply ih
    intro kv hkv
    rw [engagementStep_feedTotals] at hkv
    rcases mem_mapSet hkv with he | hm
    · subst he
      apply bumpCounts_inv
      cases hg : mapGet acc.feedTotals a.feed_id with
      | none => simp
      | some c =>
        simp only [Option.getD_some]
        obtain ⟨kv', hfind, hsnd⟩ :
            ∃ kv', acc.feedTotals.find? (fun kv => kv.1 = a.feed_id) = some kv'
              ∧ kv'.2 = c := by
          cases hf : acc.feedTotals.find? (fun kv => kv.1 = a.feed_id) with
          | none => simp [mapGet, hf] at hg
          | some kv' => exact ⟨kv', rfl, by simpa [mapGet, hf] using hg⟩
        have hinv := h kv' (List.mem_of_find?_eq_some hfind)
        rw [hsnd] at hinv
        exact hinv
    · exact h kv hm

/-! ### Daily-activity counts lemmas -/

theorem mapGet_countsFold (l : List Article) (m : List (Int × Counts)) (k : Int) :
    (mapGet (l.foldl countsStep m) k).getD ⟨0, 0, 0⟩ =
      { total := ((mapGet m k).getD ⟨0, 0, 0⟩).total + l.countP (matchesDay k)
        read := ((mapGet m k).getD ⟨0, 0, 0⟩).read
                  + l.countP (fun a => matchesDay k a && a.is_read)
        unread := ((mapGet m k).getD ⟨0, 0, 0⟩).unread
                  + l.countP (fun a => matchesDay k a && !a.is_read) } := by
  induction l generalizing m with
  | nil => simp
  | cons a l ih =>
    rw [List.foldl_cons, ih]
    cases he : effectiveDay a with
    | none =>
      have hm : matchesDay k a = false := by simp [matchesDay, he]
      simp [countsStep, he, List.countP_cons, hm]
    | some d =>
      have hstep : countsStep m a
          = mapSet m d (bumpCounts ((mapGet m d).getD ⟨0, 0, 0⟩) a) := by
        simp [countsStep, he]
      rw [hstep]
      by_cases hk : d = k
      · subst hk
        have hm : matchesDay d a = true := by simp [matchesDay, he]
        rw [mapGet_mapSet]
        simp only [if_pos rfl, Option.getD_some, List.countP_cons, hm]
        cases hr : a.is_read <;>
          simp only [bumpCounts, hr, Option.getD_some, Bool.true_and, Bool.false_and,
            Bool.and_true, Bool.and_false, if_true, if_false, Bool.not_true,
            Bool.not_false, Counts.mk.injEq, Bool.false_eq_true, ite_true, ite_false] <;>
          refine ⟨by omega, by omega, by omega⟩
      · have hm : matchesDay k a = false := by simp [matchesDay, he, hk]
        rw [mapGet_mapSet]
        simp [if_neg hk, List.countP_cons, hm]

theorem dayCounts_eq (filt : List Article) (k : Int) :
    dayCounts filt k =
      { total := filt.countP (matchesDay k)
        read := filt.countP (fun a => matchesDay k a && a.is_read)
        unread := filt.countP (fun a => matchesDay k a && !a.is_read) } := by
  have h := mapGet_countsFold filt [] k
  simpa [dayCounts, countsMapBuild, mapGet_nil] using h

theorem keys_countsFold (l : List Article) (m : List (Int × Counts)) (k : Int) :
    k ∈ (l.foldl countsStep m).map Prod.fst
      ↔ k ∈ m.map Prod.fst ∨ ∃ a ∈ l, effectiveDay a = some k := by
  induction l generalizing m with
  | nil => simp
  | cons a l ih =>
    rw [List.foldl_cons, ih]
    cases he : effectiveDay a with
    | none =>
      simp only [countsStep, he, List.mem_cons]
      constructor
      · rintro (h | ⟨a', ha', hk⟩)
        · exact Or.inl h
        · exact Or.inr ⟨a', Or.inr ha', hk⟩
      · rintro (h | ⟨a', (rfl | ha'), hk⟩)
        · exact Or.inl h
        · rw [he] at hk
          cases hk
        · exact Or.inr ⟨a', ha', hk⟩
    | some d =>
      have hstep : countsStep m a
          = mapSet m d (bumpCounts ((mapGet m d).getD ⟨0, 0, 0⟩) a) := by
        simp [countsStep, he]
      rw [hstep, keys_mapSet]
      constructor
      · rintro ((h | rfl) | ⟨a', ha', hk⟩)
        · exact Or.inl h
        · exact Or.inr ⟨a, List.mem_cons_self _ _, he⟩
        · exact Or.inr ⟨a', List.mem_cons_of_mem _ ha', hk⟩
      · rintro (h | ⟨a', ha', hk⟩)
        · exact Or.inl (Or.inl h)
        · rcases List.mem_cons.1 ha' with rfl | ha'
          · rw [he] at hk
            cases hk
            exact Or.inl (Or.inr rfl)
          · exact Or.inr ⟨a', ha', hk⟩

theorem nodup_keys_countsFold (l : List Article) (m : List (Int × Counts))
    (h : (m.map Prod.fst).Nodup) :
    ((l.foldl countsStep m).map Prod.fst).Nodup := by
  induction l generalizing m with
  | nil => exact h
  | cons a l ih =>
    rw [List.foldl_cons]
    apply ih
    cases he : effectiveDay a with
    | none => simpa [countsStep, he] using h
    | some d =>
      have hstep : countsStep m a
          = mapSet m d (bumpCounts ((mapGet m d).getD ⟨0, 0, 0⟩) a) := by
        simp [countsStep, he]
      rw [hstep]
      exact nodup_keys_mapSet _ _ h

theorem mem_keys_countsMapBuild (filt : List Article) (k : Int) :
    k ∈ (countsMapBuild filt).map Prod.fst ↔ ∃ a ∈ filt, effectiveDay a = some k := by
  simpa [countsMapBuild] using keys_countsFold filt [] k

theorem nodup_keys_countsMapBuild (filt : List Article) :
    ((countsMapBuild filt).map Prod.fst).Nodup := by
  simpa [countsMapBuild] using nodup_keys_countsFold filt [] (by simp)

/-! ### Streak lemmas -/

theorem foldl_streakStep_fst (l : List DailyActivityPoint) (best current : Nat)
    (prev : Option Int) :
    (l.foldl streakStep (best, current, prev)).1 = max best (streakG prev current l) := by
  induction l generalizing best current prev with
  | nil => simp [streakG]
  | cons p rest ih =>
    rw [List.foldl_cons]
    show (rest.foldl streakStep (streakStep (best, current, prev) p)).1 = _
    by_cases hr : 0 < p.read
    · have hstep : streakStep (best, current, prev) p =
          (max best (streakCur prev current p + 1), streakCur prev current p + 1,
            some p.dateKey) := by
        simp [streakStep, streakCur, hr]
      rw [hstep, ih]
      rw [show streakG prev current (p :: rest)
          = max (streakCur prev current p + 1)
              (streakG (some p.dateKey) (streakCur prev current p + 1) rest) from by
        simp [streakG, hr]]
      rw [Nat.max_assoc]
    · have hstep : streakStep (best, current, prev) p = (best, 0, some p.dateKey) := by
        simp [streakStep, hr]
      rw [hstep, ih]
      rw [show streakG prev current (p :: rest) = max 0 (streakG (some p.dateKey) 0 rest) from by
        simp [streakG, hr]]
      simp

theorem longestReadStreak_eq_streakG (l : List DailyActivityPoint) :
    longestReadStreak l = streakG none 0 l := by
  cases l with
  | nil => simp [longestReadStreak, streakG]
  | cons p rest =>
    rw [longestReadStreak, if_neg (by simp), foldl_streakStep_fst]
    simp

theorem headRunFrom_le_longestRunSpec (d : Int) (l : List DailyActivityPoint) :
    headRunFrom d l ≤ longestRunSpec l := by
  induction l generalizing d with
  | nil => simp [headRunFrom, longestRunSpec]
  | cons p rest ih =>
    rw [headRunFrom]
    by_cases hc : p.dateKey = d + 1 ∧ 0 < p.read
    · rw [if_pos hc, longestRunSpec, if_pos hc.2]
      exact le_max_left _ _
    · rw [if_neg hc]
      exact Nat.zero_le _

theorem streakG_ascending (l : List DailyActivityPoint) (d : Int) (c : Nat)
    (hchain : List.Chain' (fun a b => a.dateKey < b.dateKey) l)
    (hhead : ∀ p ∈ l.head?, d < p.dateKey) :
    streakG (some d) c l =
      max (if headRunFrom d l = 0 then 0 else c + headRunFrom d l) (longestRunSpec l) := by
  induction l generalizing d c with
  | nil => simp [streakG, headRunFrom, longestRunSpec]
  | cons p rest ih =>
    have hd : d < p.dateKey := hhead p (by simp)
    obtain ⟨hph, hcr⟩ := List.chain'_cons'.1 hchain
    set m := headRunFrom p.dateKey rest with hm
    set L := longestRunSpec rest with hL
    have ihr : ∀ c' : Nat,
        streakG (some p.dateKey) c' rest = max (if m = 0 then 0 else c' + m) L :=
      fun c' => ih p.dateKey c' hcr hph
    by_cases hgap : p.dateKey = d + 1
    · have hc1 : ¬ 1 < p.dateKey - d := by omega
      by_cases hr : 0 < p.read
      · have hG : streakG (some d) c (p :: rest)
            = max (c + 1) (streakG (some p.dateKey) (c + 1) rest) := by
          simp [streakG, streakCur, hc1, hr]
        have hhr : headRunFrom d (p :: rest) = m + 1 := by
          rw [headRunFrom, if_pos ⟨hgap, hr⟩]
        have hls : longestRunSpec (p :: rest) = max (m + 1) L := by
          rw [longestRunSpec, if_pos hr]
        rw [hG, ihr (c + 1), hhr, hls, if_neg (Nat.succ_ne_zero m)]
        simp only [Nat.max_def]
        split_ifs <;> omega
      · have hG : streakG (some d) c (p :: rest)
            = max 0 (streakG (some p.dateKey) 0 rest) := by
          simp [streakG, streakCur, hc1, hr]
        have hhr : headRunFrom d (p :: rest) = 0 := by
          rw [headRunFrom, if_neg (by tauto)]
        have hls : longestRunSpec (p :: rest) = max 0 L := by
          rw [longestRunSpec, if_neg hr]
        have hmL : m ≤ L := headRunFrom_le_longestRunSpec _ _
        rw [hG, ihr 0, hhr, hls]
        simp only [Nat.max_def]
        split_ifs <;> omega
    · have hc1 : 1 < p.dateKey - d := by omega
      have hhr : headRunFrom d (p :: rest) = 0 := by
        rw [headRunFrom, if_neg (by tauto)]
      rw [hhr, if_pos rfl]
      by_cases hr : 0 < p.read
      · have hG : streakG (some d) c (p :: rest)
            = max 1 (streakG (some p.dateKey) 1 rest) := by
          simp [streakG, streakCur, hc1, hr]
        have hls : longestRunSpec (p :: rest) = max (m + 1) L := by
          rw [longestRunSpec, if_pos hr]
        rw [hG, ihr 1, hls]
        simp only [Nat.max_def]
        split_ifs <;> omega
      · have hG : streakG (some d) c (p :: rest)
            = max 0 (streakG (some p.dateKey) 0 rest) := by
          simp [streakG, streakCur, hc1, hr]
        have hls : longestRunSpec (p :: rest) = max 0 L := by
          rw [longestRunSpec, if_neg hr]
        have hmL : m ≤ L := headRunFrom_le_longestRunSpec _ _
        rw [hG, ihr 0, hls]
        simp only [Nat.max_def]
        split_ifs <;> omega

theorem streakG_none_eq_longestRunSpec (l : List DailyActivityPoint)
    (hchain : List.Chain' (fun a b => a.dateKey < b.dateKey) l) :
    streakG none 0 l = longestRunSpec l := by
  cases l with
  | nil => simp [streakG, longestRunSpec]
  | cons p rest =>
    obtain ⟨hph, hcr⟩ := List.chain'_cons'.1 hchain
    set m := headRunFrom p.dateKey rest with hm
    set L := longestRunSpec rest with hL
    by_cases hr : 0 < p.read
    · have hG : streakG none 0 (p :: rest)
          = max 1 (streakG (some p.dateKey) 1 rest) := by
        simp [streakG, streakCur, hr]
      have hls : longestRunSpec (p :: rest) = max (m + 1) L := by
        rw [longestRunSpec, if_pos hr]
      rw [hG, streakG_ascending rest p.dateKey 1 hcr hph, hls]
      simp only [Nat.max_def]
      split_ifs <;> omega
    · have hG : streakG none 0 (p :: rest)
          = max 0 (streakG (some p.dateKey) 0 rest) := by
        simp [streakG, streakCur, hr]
      have hls : longestRunSpec (p :: rest) = max 0 L := by
        rw [longestRunSpec, if_neg hr]
      have hmL : m ≤ L := headRunFrom_le_longestRunSpec _ _
      rw [hG, streakG_ascending rest p.dateKey 0 hcr hph, hls]
      simp only [Nat.max_def]
      split_ifs <;> omega

theorem length_le_headRunFrom (s post : List DailyActivityPoint) (d : Int)
    (hread : ∀ q ∈ s, 0 < q.read) (hcons : consecFrom d s) :
    s.length ≤ headRunFrom d (s ++ post) := by
  induction s generalizing d with
  | nil => exact Nat.zero_le _
  | cons q s ih =>
    obtain ⟨hq, hcons'⟩ := hcons
    rw [List.cons_append, headRunFrom,
      if_pos ⟨hq, hread q (List.mem_cons_self _ _)⟩]
    exact Nat.succ_le_succ
      (ih q.dateKey (fun x hx => hread x (List.mem_cons_of_mem _ hx)) hcons')

theorem chain'_consecFrom (p : DailyActivityPoint) (s : List DailyActivityPoint)
    (h : List.Chain' (fun a b => b.dateKey = a.dateKey + 1) (p :: s)) :
    consecFrom p.dateKey s := by
  induction s generalizing p with
  | nil => trivial
  | cons q s ih =>
    obtain ⟨hpq, hrest⟩ := List.chain'_cons.1 h
    exact ⟨hpq, ih q hrest⟩

theorem seg_le_longestRunSpec (pre s post : List DailyActivityPoint)
    (hread : ∀ q ∈ s, 0 < q.read)
    (hcons : List.Chain' (fun a b => b.dateKey = a.dateKey + 1) s) :
    s.length ≤ longestRunSpec (pre ++ (s ++ post)) := by
  induction pre with
  | nil =>
    cases s with
    | nil => exact Nat.zero_le _
    | cons p s' =>
      have hp : 0 < p.read := hread p (List.mem_cons_self _ _)
      rw [List.nil_append, List.cons_append, longestRunSpec, if_pos hp]
      refine le_max_of_le_left ?_
      exact Nat.succ_le_succ
        (length_le_headRunFrom s' post p.dateKey
          (fun x hx => hread x (List.mem_cons_of_mem _ hx))
          (chain'_consecFrom p s' hcons))
  | cons q pre ih =>
    rw [List.cons_append, longestRunSpec]
    exact le_trans ih (le_max_right _ _)

/-! ### Window arithmetic lemmas -/

theorem msPerDay_pos : (0 : Int) < msPerDay := by decide

theorem cutoff_val (now : Int) (n : Nat) :
    endOfToday now - ((n : Int) - 1) * msPerDay
      = (dayOf now - ((n : Int) - 2)) * msPerDay - 1 := by
  unfold endOfToday
  ring

theorem dayOf_mul_add (q r : Int) (h0 : 0 ≤ r) (h1 : r < msPerDay) :
    dayOf (q * msPerDay + r) = q := by
  unfold dayOf
  rw [add_comm, Int.add_mul_ediv_right _ _ (by decide : msPerDay ≠ 0)]
  rw [Int.ediv_eq_zero_of_lt h0 h1]
  ring

theorem day_mul_le (t : Int) : dayOf t * msPerDay ≤ t := by
  unfold dayOf
  exact Int.ediv_mul_le t (by decide : msPerDay ≠ 0)

theorem lt_day_succ_mul (t : Int) : t < (dayOf t + 1) * msPerDay := by
  unfold dayOf
  exact Int.lt_ediv_add_one_mul_self t msPerDay_pos

theorem dayOf_mono {s t : Int} (h : s ≤ t) : dayOf s ≤ dayOf t :=
  Int.ediv_le_ediv msPerDay_pos h

theorem includeArticle_some (c : Int) (a : Article) :
    includeArticle (some c) a = true
      ↔ ∃ t, parseArticleDate a = some t ∧ c ≤ t := by
  cases hp : parseArticleDate a <;> simp [includeArticle, hp]

/-! ### Window key lemmas -/

theorem mem_windowKeys (now : Int) (n : Nat) (k : Int) :
    k ∈ (List.range n).map (fun (i : Nat) => dayOf now - ((n : Int) - 1) + (i : Int))
      ↔ dayOf now - ((n : Int) - 1) ≤ k ∧ k ≤ dayOf now := by
  simp only [List.mem_map, List.mem_range]
  constructor
  · rintro ⟨i, hi, rfl⟩
    omega
  · rintro ⟨h1, h2⟩
    refine ⟨(k - (dayOf now - ((n : Int) - 1))).toNat, by omega, by omega⟩

theorem nodup_windowKeys (now : Int) (n : Nat) :
    ((List.range n).map (fun (i : Nat) => dayOf now - ((n : Int) - 1) + (i : Int))).Nodup := by
  have h := List.pairwise_lt_range n
  have h2 : List.Pairwise
      (fun a b : Nat => (dayOf now - ((n : Int) - 1) + (a : Int))
        ≠ (dayOf now - ((n : Int) - 1) + (b : Int))) (List.range n) :=
    h.imp (by intro a b hab; omega)
  exact List.pairwise_map.2 h2

theorem sum_countP_over_keys (K : List Int) (hK : K.Nodup) (l : List Article) :
    (K.map (fun k => l.countP (matchesDay k))).sum
      = l.countP (fun a =>
          match effectiveDay a with
          | some k => decide (k ∈ K)
          | none => false) := by
  induction l with
  | nil => simp
  | cons a l ih =>
    rw [List.countP_cons]
    simp only [List.countP_cons]
    rw [sum_map_add, ih]
    congr 1
    cases he : effectiveDay a with
    | none =>
      have hz : ∀ k : Int, (if matchesDay k a then 1 else 0) = 0 := by
        intro k
        simp [matchesDay, he]
      simp only [hz]
      simp [he]
    | some d =>
      have hz : ∀ k ∈ K, (if matchesDay k a then 1 else 0) = if d = k then 1 else 0 := by
        intro k _
        by_cases hk : d = k <;> simp [matchesDay, he, hk]
      rw [List.map_congr_left hz, sum_map_indicator K hK d]
      simp [he]

/-! ### Cluster-topic lemmas -/

theorem mapGet_bumpTopic (m : List (String × Nat)) (t t' : String) :
    mapGet (bumpTopic m t) t'
      = if t = t' then some ((mapGet m t').getD 0 + 1) else mapGet m t' := by
  induction m with
  | nil =>
    by_cases h : t = t' <;> simp [bumpTopic, mapGet_cons, mapGet_nil, h]
  | cons kv rest ih =>
    by_cases h : kv.1 = t
    · by_cases h2 : t = t'
      · subst h2
        simp [bumpTopic, h, mapGet_cons]
      · have hkv : ¬ kv.1 = t' := by rw [h]; exact h2
        simp [bumpTopic, h, mapGet_cons, h2, hkv]
    · by_cases h' : kv.1 = t'
      · have h2 : ¬ t = t' := fun e => h (by rw [h']; exact e.symm)
        have h3 : ¬ t' = t := fun e => h2 e.symm
        simp [bumpTopic, h, mapGet_cons, h', h2, h3]
      · simp [bumpTopic, h, mapGet_cons, h', ih]

theorem keys_bumpTopic (m : List (String × Nat)) (t t' : String) :
    t' ∈ (bumpTopic m t).map Prod.fst ↔ t' ∈ m.map Prod.fst ∨ t' = t := by
  induction m with
  | nil => simp [bumpTopic]
  | cons kv rest ih =>
    by_cases h : kv.1 = t
    · subst h
      simp [bumpTopic]
      tauto
    · simp [bumpTopic, h, ih]
      tauto

theorem nodup_keys_bumpTopic {m : List (String × Nat)} (t : String)
    (h : (m.map Prod.fst).Nodup) : ((bumpTopic m t).map Prod.fst).Nodup := by
  induction m with
  | nil => simp [bumpTopic]
  | cons kv rest ih =>
    rw [List.map_cons, List.nodup_cons] at h
    obtain ⟨hni, hnd⟩ := h
    by_cases hk : kv.1 = t
    · have he : bumpTopic (kv :: rest) t = (kv.1, kv.2 + 1) :: rest := by
        simp [bumpTopic, hk]
      rw [he, List.map_cons, List.nodup_cons]
      exact ⟨hni, hnd⟩
    · simp only [bumpTopic, if_neg hk, List.map_cons, List.nodup_cons]
      refine ⟨?_, ih hnd⟩
      intro hmem
      rcases (keys_bumpTopic rest t kv.1).1 hmem with h' | h'
      · exact hni h'
      · exact hk h'

theorem mapGet_topicCounts_getD (ts : List String) (m : List (String × Nat))
    (t : String) :
    (mapGet (ts.foldl bumpTopic m) t).getD 0 = (mapGet m t).getD 0 + ts.count t := by
  induction ts generalizing m with
  | nil => simp
  | cons u ts ih =>
    rw [List.foldl_cons, ih, mapGet_bumpTopic]
    by_cases h : u = t
    · subst h
      rw [if_pos rfl, List.count_cons_self, Option.getD_some]
      omega
    · rw [if_neg h, List.count_cons_of_ne (fun e => h e.symm)]

theorem nodup_keys_topicCounts (ts : List String) :
    ((topicCounts ts).map Prod.fst).Nodup := by
  have haux : ∀ (l : List String) (m : List (String × Nat)),
      (m.map Prod.fst).Nodup → ((l.foldl bumpTopic m).map Prod.fst).Nodup := by
    intro l
    induction l with
    | nil => intro m h; exact h
    | cons u l ih =>
      intro m h
      rw [List.foldl_cons]
      exact ih _ (nodup_keys_bumpTopic u h)
  simpa [topicCounts] using haux ts [] (by simp)

theorem mapGet_of_mem_nodup {m : List (String × Nat)} {kv : String × Nat}
    (hnd : (m.map Prod.fst).Nodup) (h : kv ∈ m) : mapGet m kv.1 = some kv.2 := by
  induction m with
  | nil => cases h
  | cons kv' rest ih =>
    rw [List.map_cons, List.nodup_cons] at hnd
    obtain ⟨hni, hnd'⟩ := hnd
    rcases List.mem_cons.1 h with rfl | h'
    · simp [mapGet_cons]
    · have hne : kv'.1 ≠ kv.1 := by
        intro e
        exact hni (e ▸ List.mem_map_of_mem Prod.fst h')
      rw [mapGet_cons, if_neg hne]
      exact ih hnd' h'

theorem topicCounts_val {ts : List String} {kv : String × Nat}
    (h : kv ∈ topicCounts ts) : kv.2 = ts.count kv.1 := by
  have hg := mapGet_of_mem_nodup (nodup_keys_topicCounts ts) h
  have hv := mapGet_topicCounts_getD ts [] kv.1
  rw [show topicCounts ts = ts.foldl bumpTopic [] from rfl] at hg
  rw [hg] at hv
  simpa [mapGet_nil] using hv

theorem mem_objectEntries {m : List (String × Nat)} {kv : String × Nat} :
    kv ∈ objectEntries m ↔ kv ∈ m := by
  unfold objectEntries
  rw [List.mem_append, (List.perm_insertionSort _ _).mem_iff,
    List.mem_filter, List.mem_filter]
  constructor
  · rintro (⟨h, _⟩ | ⟨h, _⟩) <;> exact h
  · intro h
    by_cases hidx : (canonicalIndex kv.1).isSome
    · exact Or.inl ⟨h, by simpa using hidx⟩
    · exact Or.inr ⟨h, by simpa using hidx⟩

theorem collect_step_append (arts : List Article) (acc : List String) (i : Int) :
    collectStep arts acc i = acc ++ collectStep arts [] i := by
  unfold collectStep
  cases arts.find? (fun a => a.id = i) with
  | none => simp
  | some a => cases h : a.topics <;> simp [h]

theorem collect_go (arts : List Article) (ids : List Int) (acc : List String) :
    ids.foldl (collectStep arts) acc = acc ++ collectClusterTopics ids arts := by
  simp only [collectClusterTopics]
  induction ids generalizing acc with
  | nil => simp
  | cons i ids ih =>
    rw [List.foldl_cons, List.foldl_cons, ih (collectStep arts acc i),
      ih (collectStep arts [] i), collect_step_append arts acc i]
    simp [List.append_assoc]

theorem collect_append (ids1 ids2 : List Int) (arts : List Article) :
    collectClusterTopics (ids1 ++ ids2) arts
      = collectClusterTopics ids1 arts ++ collectClusterTopics ids2 arts := by
  have h := collect_go arts ids2 (ids1.foldl (collectStep arts) [])
  simp only [collectClusterTopics] at h ⊢
  rw [List.foldl_append, h]

/-! ### Claim theorems -/

/-- C5: for every strictly ascending daily-activity series,
`longestReadStreak` returns the length of the longest run of consecutive
calendar days each having `read > 0` (computed independently by
`longestRunSpec`, with a day gap greater than one breaking a run); every
contiguous all-read day-consecutive segment is bounded by the result; the
empty series yields 0; and the series with reads [1,1,0,1,1,1,0] over 7
consecutive ascending days yields 3. -/
theorem claim5_longest_read_streak (pts : List DailyActivityPoint)
    (hasc : List.Chain' (fun a b => a.dateKey < b.dateKey) pts) :
    longestReadStreak pts = longestRunSpec pts
    ∧ (∀ pre s post, pts = pre ++ (s ++ post) → (∀ q ∈ s, 0 < q.read) →
        List.Chain' (fun a b => b.dateKey = a.dateKey + 1) s →
        s.length ≤ longestReadStreak pts)
    ∧ longestReadStreak [] = 0
    ∧ longestReadStreak exampleSeries = 3 := by
  have hmain : longestReadStreak pts = longestRunSpec pts := by
    rw [longestReadStreak_eq_streakG]
    exact streakG_none_eq_longestRunSpec pts hasc
  refine ⟨hmain, ?_, by decide, by decide⟩
  intro pre s post hsplit hread hcons
  rw [hmain, hsplit]
  exact seg_le_longestRunSpec pre s post hread hcons

/-- Witness for C5 at the concrete example series. -/
theorem claim5_longest_read_streak_witness :
    longestReadStreak exampleSeries = 3 :=
  (claim5_longest_read_streak exampleSeries
    (by simp [exampleSeries, List.chain'_cons])).2.2.2

/-- C6: the fallback sentiment classification assigns each score to
exactly the bucket of the threshold table (Positive iff score ≥ 0.5,
Slightly Positive iff 0.05 ≤ score < 0.5, Neutral iff -0.05 < score
< 0.05, Slightly Negative iff -0.5 < score ≤ -0.05, Negative iff
score ≤ -0.5), and the engagement pass counts, per bucket, exactly the
filtered articles whose score classifies into that bucket. -/
theorem claim6_sentiment_thresholds (s : ℚ) (b : SentimentBucket)
    (filt : List Article) :
    ((classifySentiment s = .positive ↔ 1/2 ≤ s)
      ∧ (classifySentiment s = .slightlyPositive ↔ 1/20 ≤ s ∧ s < 1/2)
      ∧ (classifySentiment s = .neutral ↔ -(1/20) < s ∧ s < 1/20)
      ∧ (classifySentiment s = .slightlyNegative ↔ -(1/2) < s ∧ s ≤ -(1/20))
      ∧ (classifySentiment s = .negative ↔ s ≤ -(1/2)))
    ∧ (engagementRun filt).sentiments.get b = filt.countP (sentimentMatches b) := by
  constructor
  · unfold classifySentiment
    split_ifs with h1 h2 h3 h4 <;>
      refine ⟨?_, ?_, ?_, ?_, ?_⟩ <;>
        simp_all <;>
          first
            | linarith
            | (constructor <;> intro <;> linarith)
            | (intro <;> linarith)
  · have h := foldl_engagement_sentiments_get filt ⟨0, 0, 0, [], ⟨0, 0, 0, 0, 0⟩⟩ b
    have h0 : (⟨0, 0, 0, 0, 0⟩ : SentimentCounters).get b = 0 := by
      cases b <;> rfl
    rw [engagementRun, h, h0, Nat.zero_add]

/-- Witness for C6: score 0.6 classifies as Positive via the table. -/
theorem claim6_sentiment_thresholds_witness :
    classifySentiment (3/5) = .positive :=
  (claim6_sentiment_thresholds (3/5) .positive []).1.1.mpr (by norm_num)

/-- C7: for every article snapshot and time-range token,
readCount + unreadCount equals the filtered article count, and
read + unread = total for every feed-performance entry. -/
theorem claim7_read_unread_partition (articles : List Article)
    (feeds : List Feed) (now : Int) (tr : Option Nat) :
    ((engagementRun (filteredArticles articles (cutoffDate now tr))).readCount
        + (engagementRun (filteredArticles articles (cutoffDate now tr))).unreadCount
      = engagementTotal (filteredArticles articles (cutoffDate now tr)))
    ∧ ∀ e ∈ feedPerformance feeds
          (engagementRun (filteredArticles articles (cutoffDate now tr))).feedTotals,
        e.read + e.unread = e.total := by
  constructor
  · set filt := filteredArticles articles (cutoffDate now tr)
    rw [engagementRun, foldl_engagement_readCount, foldl_engagement_unreadCount]
    simp only [EngagementAcc.readCount, EngagementAcc.unreadCount, Nat.zero_add]
    rw [engagementTotal, List.length_eq_countP_add_countP (fun a => a.is_read)]
    congr 1
    apply List.countP_congr
    intro a _
    cases h : a.is_read <;> simp [h]
  · intro e he
    have hinv : ∀ kv ∈ (engagementRun
          (filteredArticles articles (cutoffDate now tr))).feedTotals,
        (kv : Int × Counts).2.read + kv.2.unread = kv.2.total := by
      rw [engagementRun]
      exact foldl_engagement_feedTotals_inv _ _ (by intro kv h; cases h)
    have he2 := (List.take_sublist 10 _).subset he
    rw [(List.perm_insertionSort _ _).mem_iff] at he2
    rw [List.mem_filter] at he2
    obtain ⟨he3, _⟩ := he2
    obtain ⟨kv, hkv, rfl⟩ := List.mem_map.1 he3
    have := hinv kv hkv
    simpa [feedPerfEntry] using this

/-- Witness for C7 at a concrete one-article snapshot. -/
theorem claim7_read_unread_partition_witness :
    (engagementRun (filteredArticles [sampleTopicArticle] (cutoffDate 0 none))).readCount
        + (engagementRun (filteredArticles [sampleTopicArticle]
            (cutoffDate 0 none))).unreadCount
      = engagementTotal (filteredArticles [sampleTopicArticle] (cutoffDate 0 none)) :=
  (claim7_read_unread_partition [sampleTopicArticle] [] 0 none).1

/-- C10: `getClusterTopics` accumulates topics once per occurrence of a
member id (the accumulation is a homomorphism over the id list, so a
repeated id contributes its article's topics again), and duplicated ids
can change the returned top-3: with four articles of one topic each,
member list [1,2,3,4,4] yields ["w","x","y"] while [1,2,3,4] yields
["x","y","z"]. -/
theorem claim10_duplicate_member_ids (arts : List Article)
    (ids1 ids2 : List Int) :
    (collectClusterTopics (ids1 ++ ids2) arts
        = collectClusterTopics ids1 arts ++ collectClusterTopics ids2 arts)
    ∧ getClusterTopics [1, 2, 3, 4, 4] (some sampleClusterArticles) = ["w", "x", "y"]
    ∧ getClusterTopics [1, 2, 3, 4] (some sampleClusterArticles) = ["x", "y", "z"]
    ∧ (["w", "x", "y"] : List String) ≠ ["x", "y", "z"] :=
  ⟨collect_append ids1 ids2 arts, by decide, by decide, by decide⟩

/-- C1 (amended): when the external aggregate is absent or has
`total ≤ 0`, the resolver outputs the five fallback counters in order;
when the aggregate is absent the percents use the fallback sum as
denominator, but when an aggregate with `total ≤ 0` is supplied the
supplied non-positive total is the denominator, so every percent is 0. -/
theorem claim1_sentiment_fallback_amended (ext : Option SentimentAnalytics)
    (fb : SentimentCounters)
    (h : ext = none ∨ ∃ e, ext = some e ∧ e.total ≤ 0) :
    ((sentimentBuckets ext fb).map (fun o => o.id))
        = ["positive", "slightlyPositive", "neutral", "slightlyNegative", "negative"]
    ∧ ((sentimentBuckets ext fb).map (fun o => o.value))
        = [fb.positive, fb.slightlyPositive, fb.neutral, fb.slightlyNegative,
           fb.negative]
    ∧ (ext = none →
        (sentimentBuckets ext fb).map (fun o => o.percent)
          = [fallbackPercent fb fb.positive, fallbackPercent fb fb.slightlyPositive,
             fallbackPercent fb fb.neutral, fallbackPercent fb fb.slightlyNegative,
             fallbackPercent fb fb.negative])
    ∧ (∀ e, ext = some e →
        (sentimentBuckets ext fb).map (fun o => o.percent) = [0, 0, 0, 0, 0]) := by
  rcases h with rfl | ⟨e, rfl, he⟩
  · refine ⟨?_, ?_, ?_, ?_⟩
    · simp [sentimentBuckets]
    · simp [sentimentBuckets]
    · intro _
      simp [sentimentBuckets, fallbackPercent, fallbackSum]
    · intro e h
      cases h
  · have hnp : ¬ (0 : Int) < e.total := not_lt.2 he
    refine ⟨?_, ?_, ?_, ?_⟩
    · simp [sentimentBuckets, hnp]
    · simp [sentimentBuckets, hnp]
    · intro h
      cases h
    · intro e' he'
      simp [sentimentBuckets, hnp]

/-- Witness for C1 with no external aggregate and one positive article. -/
theorem claim1_sentiment_fallback_amended_witness :
    (sentimentBuckets none ⟨1, 0, 0, 0, 0⟩).map (fun o => o.value)
      = [1, 0, 0, 0, 0] :=
  (claim1_sentiment_fallback_amended none ⟨1, 0, 0, 0, 0⟩ (Or.inl rfl)).2.1

/-- C1 counterexample: an external aggregate with `total = 0` and fallback
counters summing to 4 yields all-zero percents, while the claim's formula
`round(value / S * 100)` with `S = 4` demands 100 for the first bucket. -/
theorem claim1_counterexample :
    ((sentimentBuckets (some ⟨0, 0, 0, 0, 0, 0⟩) ⟨4, 0, 0, 0, 0⟩).map
        (fun o => o.percent)) = [0, 0, 0, 0, 0]
    ∧ ((sentimentBuckets (some ⟨0, 0, 0, 0, 0, 0⟩) ⟨4, 0, 0, 0, 0⟩).map
        (fun o => o.value)) = [4, 0, 0, 0, 0]
    ∧ jsRound ((4 : ℚ) / (4 : ℚ) * 100) = 100
    ∧ (100 : Int) ≠ 0 := by
  refine ⟨by decide, by decide, ?_, by decide⟩
  rw [jsRound, Int.floor_eq_iff]
  norm_num

/-- C2 (amended): for a finite token `N` the cutoff is the last
millisecond of day `today - (N-1)`, so an article is included iff its
effective date is parseable and at least `(today - (N-2)) * day - 1`;
every parseable date on day `today - (N-2)` or later is included, a date
on day `today - (N-1)` is included only when it is exactly that last
millisecond, and the null cutoff includes everything. -/
theorem claim2_window_cutoff_amended (now : Int) (n : Nat) (a : Article) :
    (includeArticle (cutoffDate now (some n)) a = true
       ↔ ∃ t, parseArticleDate a = some t
           ∧ (dayOf now - ((n : Int) - 2)) * msPerDay - 1 ≤ t)
    ∧ (∀ t, parseArticleDate a = some t →
        dayOf now - ((n : Int) - 2) ≤ dayOf t →
        includeArticle (cutoffDate now (some n)) a = true)
    ∧ (∀ t, parseArticleDate a = some t → dayOf t = dayOf now - ((n : Int) - 1) →
        (includeArticle (cutoffDate now (some n)) a = true
          ↔ t = (dayOf now - ((n : Int) - 2)) * msPerDay - 1))
    ∧ includeArticle (cutoffDate now none) a = true := by
  have hcv : cutoffDate now (some n)
      = some ((dayOf now - ((n : Int) - 2)) * msPerDay - 1) := by
    simp only [cutoffDate]
    rw [cutoff_val]
  refine ⟨?_, ?_, ?_, by simp [includeArticle, cutoffDate]⟩
  · rw [hcv, includeArticle_some]
  · intro t hp hday
    rw [hcv, includeArticle_some]
    refine ⟨t, hp, ?_⟩
    have h1 : (dayOf now - ((n : Int) - 2)) * msPerDay ≤ dayOf t * msPerDay :=
      mul_le_mul_of_nonneg_right hday (le_of_lt msPerDay_pos)
    have h2 := day_mul_le t
    linarith
  · intro t hp hday
    rw [hcv, includeArticle_some]
    constructor
    · rintro ⟨t', hp', hle⟩
      rw [hp] at hp'
      injection hp' with ht
      subst ht
      have h3 := lt_day_succ_mul t
      rw [hday] at h3
      have heq : (dayOf now - ((n : Int) - 1) + 1) * msPerDay
          = (dayOf now - ((n : Int) - 2)) * msPerDay := by ring
      rw [heq] at h3
      linarith
    · intro hEq
      exact ⟨t, hp, by rw [hEq]⟩

/-- Witness for C2: a future-dated article (day 101, today = day 100,
token 7) is accepted by the amended inclusion rule. -/
theorem claim2_window_cutoff_amended_witness :
    includeArticle (cutoffDate (100 * 86400000) (some 7)) articleNoonDay101 = true :=
  (claim2_window_cutoff_amended (100 * 86400000) 7 articleNoonDay101).2.1
    (101 * 86400000 + 43200000) (by decide) (by decide)

/-- C2 counterexample: today = day 100, token 7; an article at noon of day
94 = today - 6 falls inside the claimed inclusive 7-day window but the
filter excludes it. -/
theorem claim2_counterexample :
    parseArticleDate articleNoonDay94 = some (94 * 86400000 + 43200000)
    ∧ dayOf (94 * 86400000 + 43200000) = dayOf (100 * 86400000) - ((7 : Int) - 1)
    ∧ includeArticle (cutoffDate (100 * 86400000) (some 7)) articleNoonDay94
        = false := by
  refine ⟨by decide, by decide, by decide⟩

theorem activityTotalSum_finite (now : Int) (n : Nat) (filt : List Article) :
    activityTotalSum (dailyActivity now (some n) filt)
      = filt.countP (fun a =>
          match effectiveDay a with
          | some k => decide (dayOf now - ((n : Int) - 1) ≤ k ∧ k ≤ dayOf now)
          | none => false) := by
  set K := (List.range n).map
      (fun (i : Nat) => dayOf now - ((n : Int) - 1) + (i : Int)) with hK
  have h1 : activityTotalSum (dailyActivity now (some n) filt)
      = (K.map (fun k => (dayCounts filt k).total)).sum := by
    rw [hK]
    simp only [activityTotalSum, dailyActivity, List.map_map]
    rfl
  have h2 : (K.map (fun k => (dayCounts filt k).total))
      = K.map (fun k => filt.countP (matchesDay k)) :=
    List.map_congr_left (fun k _ => by rw [dayCounts_eq])
  rw [h1, h2, sum_countP_over_keys K (by rw [hK]; exact nodup_windowKeys now n) filt]
  apply List.countP_congr
  intro a _
  cases he : effectiveDay a with
  | none => simp
  | some d =>
    have hiff := mem_windowKeys now n d
    rw [← hK] at hiff
    simp [he, hiff]

theorem activityTotalSum_all (now : Int) (filt : List Article) :
    activityTotalSum (dailyActivity now none filt)
      = filt.countP (fun a => (parseArticleDate a).isSome) := by
  set K := ((countsMapBuild filt).map Prod.fst).insertionSort (fun a b => a ≤ b)
    with hK
  have hperm : K.Perm ((countsMapBuild filt).map Prod.fst) := by
    rw [hK]
    exact List.perm_insertionSort _ _
  have hnd : K.Nodup := hperm.nodup_iff.2 (nodup_keys_countsMapBuild filt)
  have h1 : activityTotalSum (dailyActivity now none filt)
      = (K.map (fun k => (dayCounts filt k).total)).sum := by
    rw [hK]
    simp only [activityTotalSum, dailyActivity, List.map_map]
    rfl
  have h2 : (K.map (fun k => (dayCounts filt k).total))
      = K.map (fun k => filt.countP (matchesDay k)) :=
    List.map_congr_left (fun k _ => by rw [dayCounts_eq])
  rw [h1, h2, sum_countP_over_keys K hnd filt]
  apply List.countP_congr
  intro a ha
  cases he : effectiveDay a with
  | none =>
    have hp : parseArticleDate a = none := by
      simpa [effectiveDay] using he
    simp [hp]
  | some d =>
    have hd : d ∈ K := hperm.mem_iff.2 ((mem_keys_countsMapBuild filt d).2 ⟨a, ha, he⟩)
    obtain ⟨t, hp, -⟩ : ∃ t, parseArticleDate a = some t ∧ dayOf t = d := by
      simpa [effectiveDay] using he
    simp [hd, hp]

/-- C3 (amended): for the `all` token the sum of `total` over the daily
series equals the number of filtered articles with a parseable effective
date; for a finite token `N` it equals the number of filtered parseable
articles whose calendar day lies in the `N` window days, which (because
the filter already bounds days from below) is exactly the filtered
parseable articles whose day does not exceed today — future-dated
articles pass the filter but fall outside every bucket. -/
theorem claim3_daily_total_sum_amended (now : Int) (articles : List Article) :
    (activityTotalSum
        (dailyActivity now none (filteredArticles articles (cutoffDate now none)))
      = (filteredArticles articles (cutoffDate now none)).countP
          (fun a => (parseArticleDate a).isSome))
    ∧ (∀ n : Nat,
        activityTotalSum
            (dailyActivity now (some n)
              (filteredArticles articles (cutoffDate now (some n))))
          = (filteredArticles articles (cutoffDate now (some n))).countP
              (fun a =>
                match effectiveDay a with
                | some k => decide (dayOf now - ((n : Int) - 1) ≤ k ∧ k ≤ dayOf now)
                | none => false))
    ∧ (∀ n : Nat,
        (filteredArticles articles (cutoffDate now (some n))).countP
            (fun a =>
              match effectiveDay a with
              | some k => decide (dayOf now - ((n : Int) - 1) ≤ k ∧ k ≤ dayOf now)
              | none => false)
          = (filteredArticles articles (cutoffDate now (some n))).countP
              (fun a =>
                match effectiveDay a with
                | some k => decide (k ≤ dayOf now)
                | none => false)) := by
  refine ⟨activityTotalSum_all now _, fun n => activityTotalSum_finite now n _, ?_⟩
  intro n
  apply List.countP_congr
  intro a ha
  rw [filteredArticles, List.mem_filter] at ha
  obtain ⟨-, hinc⟩ := ha
  rw [show cutoffDate now (some n)
      = some ((dayOf now - ((n : Int) - 2)) * msPerDay - 1) from by
    simp only [cutoffDate]
    rw [cutoff_val]] at hinc
  obtain ⟨t, hp, hle⟩ := (includeArticle_some _ _).1 hinc
  cases he : effectiveDay a with
  | none => simp
  | some k =>
    have hk : dayOf t = k := by
      rw [effectiveDay, hp] at he
      simpa using he
    have hCeq : (dayOf now - ((n : Int) - 2)) * msPerDay - 1
        = (dayOf now - ((n : Int) - 1)) * msPerDay + (msPerDay - 1) := by ring
    have hdC : dayOf ((dayOf now - ((n : Int) - 1)) * msPerDay + (msPerDay - 1))
        = dayOf now - ((n : Int) - 1) :=
      dayOf_mul_add _ _ (by decide) (by decide)
    have hlow : dayOf now - ((n : Int) - 1) ≤ k := by
      rw [← hk, ← hdC]
      exact dayOf_mono (by rw [← hCeq]; exact hle)
    simp [hlow]

/-- Witness for C3 on an empty snapshot under the `all` token. -/
theorem claim3_daily_total_sum_amended_witness :
    activityTotalSum (dailyActivity 0 none (filteredArticles [] (cutoffDate 0 none)))
      = (filteredArticles [] (cutoffDate 0 none)).countP
          (fun a => (parseArticleDate a).isSome) :=
  (claim3_daily_total_sum_amended 0 []).1

/-- C3 counterexample: today = day 100, token 7; a single article dated
noon of day 101 passes the filter (date ≥ cutoff) and is parseable, yet
its day key is outside the 7 emitted buckets, so the bucket totals sum to
0 while the filtered parseable count is 1. -/
theorem claim3_counterexample :
    activityTotalSum (dailyActivity (100 * 86400000) (some 7)
        (filteredArticles [articleNoonDay101] (cutoffDate (100 * 86400000) (some 7))))
      ≠ (filteredArticles [articleNoonDay101]
          (cutoffDate (100 * 86400000) (some 7))).countP
          (fun a => (parseArticleDate a).isSome) := by decide

/-- C4: for every finite window of length `N` the daily series has exactly
`N` points with strictly ascending, duplicate-free day keys covering the
calendar days `today - (N-1)` through `today` inclusive, and any day with
no matching filtered article carries `{read: 0, unread: 0, total: 0}`. -/
theorem claim4_daily_window_shape (now : Int) (n : Nat) (filt : List Article) :
    (dailyActivity now (some n) filt).length = n
    ∧ List.Pairwise (fun p q : DailyActivityPoint => p.dateKey < q.dateKey)
        (dailyActivity now (some n) filt)
    ∧ ((dailyActivity now (some n) filt).map (fun p => p.dateKey)).Nodup
    ∧ (∀ k : Int, (∃ p ∈ dailyActivity now (some n) filt, p.dateKey = k)
        ↔ dayOf now - ((n : Int) - 1) ≤ k ∧ k ≤ dayOf now)
    ∧ ∀ p ∈ dailyActivity now (some n) filt,
        (∀ a ∈ filt, effectiveDay a ≠ some p.dateKey) →
        p.read = 0 ∧ p.unread = 0 ∧ p.total = 0 := by
  have hkeys : (dailyActivity now (some n) filt).map (fun p => p.dateKey)
      = (List.range n).map
          (fun (i : Nat) => dayOf now - ((n : Int) - 1) + (i : Int)) := by
    simp [dailyActivity, List.map_map, Function.comp]
  refine ⟨by simp [dailyActivity], ?_, ?_, ?_, ?_⟩
  · rw [dailyActivity]
    refine List.pairwise_map.2 ?_
    exact (List.pairwise_lt_range n).imp (by intro i j hij; simp; omega)
  · rw [hkeys]
    exact nodup_windowKeys now n
  · intro k
    have hmem : (∃ p ∈ dailyActivity now (some n) filt, p.dateKey = k)
        ↔ k ∈ (dailyActivity now (some n) filt).map (fun p => p.dateKey) := by
      rw [List.mem_map]
    rw [hmem, hkeys, mem_windowKeys]
  · intro p hp hnone
    rw [dailyActivity, List.mem_map] at hp
    obtain ⟨i, _, rfl⟩ := hp
    simp only []
    rw [dayCounts_eq]
    have hz : filt.countP
        (matchesDay (dayOf now - ((n : Int) - 1) + (i : Int))) = 0 := by
      rw [List.countP_eq_zero]
      intro a ha
      have := hnone a ha
      simp only [matchesDay] at *
      simpa using this
    refine ⟨?_, ?_, ?_⟩ <;>
      rw [List.countP_eq_zero] <;>
        intro a ha <;>
          have h2 := (List.countP_eq_zero.1 hz) a ha <;>
            simp_all [matchesDay]

/-- Witness for C4: a 7-day window over an empty snapshot has 7 points. -/
theorem claim4_daily_window_shape_witness :
    (dailyActivity 0 (some 7) []).length = 7 :=
  (claim4_daily_window_shape 0 7 []).1

/-- C8 (amended): every feed-performance entry has `total > 0`,
`active = is_active` of the found feed (false when the feed is missing),
`readRate = round(read/total*100)`, and `name` follows JS `||` semantics:
the feed's title when it is non-null and non-empty, else "Untitled"; the
list is sorted non-increasing by `total` with at most 10 entries, and the
chart list keeps at most 8. -/
theorem claim8_feed_performance_amended (feeds : List Feed)
    (ft : List (Int × Counts)) :
    (∀ e ∈ feedPerformance feeds ft,
        0 < e.total
        ∧ e.name = (match feedsById feeds e.feedId with
            | some f =>
              match f.title with
              | some t => if t = "" then "Untitled" else t
              | none => "Untitled"
            | none => "Untitled")
        ∧ e.active = (match feedsById feeds e.feedId with
            | some f => f.is_active
            | none => false)
        ∧ e.readRate = jsRound ((e.read : ℚ) / (e.total : ℚ) * 100))
    ∧ List.Pairwise (fun a b : FeedPerf => b.total ≤ a.total)
        (feedPerformance feeds ft)
    ∧ (feedPerformance feeds ft).length ≤ 10
    ∧ (topFeedsForChart feeds ft).length ≤ 8 := by
  refine ⟨?_, ?_, ?_, ?_⟩
  · intro e he
    have he2 := (List.take_sublist 10 _).subset he
    rw [(List.perm_insertionSort _ _).mem_iff, List.mem_filter] at he2
    obtain ⟨he3, hpos⟩ := he2
    obtain ⟨kv, hkv, rfl⟩ := List.mem_map.1 he3
    have ht : 0 < kv.2.total := by simpa [feedPerfEntry] using hpos
    refine ⟨by simpa [feedPerfEntry] using ht, ?_, ?_, ?_⟩
    · simp [feedPerfEntry]
    · simp [feedPerfEntry]
    · simp [feedPerfEntry, ht]
  · haveI : IsTotal FeedPerf (fun a b => b.total ≤ a.total) :=
      ⟨fun a b => le_total b.total a.total⟩
    haveI : IsTrans FeedPerf (fun a b => b.total ≤ a.total) :=
      ⟨fun _ _ _ hab hbc => le_trans hbc hab⟩
    exact List.Pairwise.sublist (List.take_sublist _ _)
      (List.sorted_insertionSort _ _)
  · rw [feedPerformance, List.length_take]
    exact min_le_left _ _
  · rw [topFeedsForChart, List.length_take]
    exact min_le_left _ _

/-- Witness for C8 on the empty inputs. -/
theorem claim8_feed_performance_amended_witness :
    (feedPerformance [] []).length ≤ 10 :=
  (claim8_feed_performance_amended [] []).2.2.1

/-- C8 counterexample: a feed with the empty string as title gets the name
"Untitled" (JS `||` treats "" as falsy), while the claim's
`title ?? "Untitled"` keeps the empty string. -/
theorem claim8_counterexample :
    (feedPerformance [⟨5, some "", true⟩]
        (engagementRun (filteredArticles
          [⟨1, 5, none, some (some 0), none, none, none, true, false⟩]
          (cutoffDate 0 none))).feedTotals).map (fun e => e.name)
      = ["Untitled"]
    ∧ (some "" : Option String).getD "Untitled" = ""
    ∧ ("" : String) ≠ "Untitled" := by
  refine ⟨by decide, by decide, by decide⟩

/-- C9 (amended): `getClusterTopics` returns at most 3 topic strings
sorted by descending frequency over the accumulated member topics; ids
with no matching article contribute nothing, the result is empty when no
member article has topics, and with no article snapshot it is empty.
Ties are broken by JS object key enumeration order (canonical array-index
strings first in ascending numeric order, then first-seen order), not by
first-seen order alone. -/
theorem claim9_cluster_topics_amended (ids : List Int) (arts : List Article) :
    (getClusterTopics ids (some arts)).length ≤ 3
    ∧ List.Pairwise
        (fun x y => (collectClusterTopics ids arts).count y
            ≤ (collectClusterTopics ids arts).count x)
        (getClusterTopics ids (some arts))
    ∧ (collectClusterTopics ids arts = [] → getClusterTopics ids (some arts) = [])
    ∧ (∀ i, arts.find? (fun a => a.id = i) = none →
        collectClusterTopics [i] arts = [])
    ∧ getClusterTopics ids none = [] := by
  refine ⟨?_, ?_, ?_, ?_, rfl⟩
  · rw [getClusterTopics, List.length_map, List.length_take]
    exact le_trans (min_le_left _ _) (le_refl _)
  · set ts := collectClusterTopics ids arts with hts
    haveI : IsTotal (String × Nat) (fun a b => b.2 ≤ a.2) :=
      ⟨fun a b => le_total b.2 a.2⟩
    haveI : IsTrans (String × Nat) (fun a b => b.2 ≤ a.2) :=
      ⟨fun _ _ _ hab hbc => le_trans hbc hab⟩
    have hsorted : List.Pairwise (fun a b : String × Nat => b.2 ≤ a.2)
        (((objectEntries (topicCounts ts)).insertionSort
            (fun a b => b.2 ≤ a.2)).take 3) :=
      List.Pairwise.sublist (List.take_sublist _ _)
        (List.sorted_insertionSort _ _)
    have hval : ∀ kv ∈ ((objectEntries (topicCounts ts)).insertionSort
          (fun a b => b.2 ≤ a.2)).take 3,
        (kv : String × Nat).2 = ts.count kv.1 := by
      intro kv hkv
      have h2 := (List.take_sublist 3 _).subset hkv
      rw [(List.perm_insertionSort _ _).mem_iff] at h2
      exact topicCounts_val (mem_objectEntries.1 h2)
    have hp2 : List.Pairwise
        (fun a b : String × Nat => ts.count b.1 ≤ ts.count a.1)
        (((objectEntries (topicCounts ts)).insertionSort
            (fun a b => b.2 ≤ a.2)).take 3) := by
      refine hsorted.imp_of_mem ?_
      intro a b ha hb hab
      rw [← hval a ha, ← hval b hb]
      exact hab
    rw [getClusterTopics]
    exact List.pairwise_map.2 hp2
  · intro h
    simp [getClusterTopics, h, topicCounts, objectEntries]
  · intro i h
    simp [collectClusterTopics, collectStep, h]

/-- Witness for C9 at a concrete cluster. -/
theorem claim9_cluster_topics_amended_witness :
    (getClusterTopics [1] (some [sampleTopicArticle])).length ≤ 3 :=
  (claim9_cluster_topics_amended [1] [sampleTopicArticle]).1

/-- C9 counterexample: a member article with topics ["a","b","c","5"],
each occurring once; `Object.entries` enumerates the array-index key "5"
first, so the code returns ["5","a","b"], while first-seen tie order
demands ["a","b","c"]. -/
theorem claim9_counterexample :
    getClusterTopics [1] (some [sampleTopicArticle]) = ["5", "a", "b"]
    ∧ claimClusterTopicsFirstSeen [1] [sampleTopicArticle] = ["a", "b", "c"]
    ∧ (["5", "a", "b"] : List String) ≠ ["a", "b", "c"] := by
  refine ⟨by decide, by decide, by decide⟩

end NewsAnalytics
